import Mathlib

/-!
Shallow embedding of the GeoBioTool metric engine.

Sources embedded (per function, kept close to the Python):
* `geobiotool_shannon_algorithm.py` — `parse_classes`, `processAlgorithm`
* `geobiotool_simpson_algorithm.py` — `parse_classes`, `processAlgorithm`
* `geobiotool_fhd_algorithm.py` — `compute_fhd`, grid loop of `processAlgorithm`
* `geobiotool_rumple_algorithm.py` — `rumple`, floor binning, groupby-apply
* `geobiotool_lai_vci_algorithm.py` — `compute_lai_vci`, floor binning, cell loop

Numeric values (float32/float64 in the source) are modelled exactly:
rational arithmetic for field operations, real numbers where `np.log`
or `np.sqrt` appears.  Fallible code returns `Except`/`Option`.
-/

namespace GeoBioTool

/-! ### Python string primitives (for `parse_classes`) -/

/-- Python `str.split(sep)` for a one-character separator: splits on every
occurrence, keeping empty segments (`"".split(c) = [""]`). -/
def splitOnChar (sep : Char) : List Char → List (List Char)
  | [] => [[]]
  | c :: cs =>
    if c = sep then [] :: splitOnChar sep cs
    else
      match splitOnChar sep cs with
      | [] => [[c]]
      | t :: ts => (c :: t) :: ts

/-- Python `str.strip()`: remove leading and trailing whitespace. -/
def stripChars (cs : List Char) : List Char :=
  ((cs.dropWhile Char.isWhitespace).reverse.dropWhile Char.isWhitespace).reverse

/-- Value of a nonempty all-digit character list, `none` otherwise. -/
def digitsVal (cs : List Char) : Option Nat :=
  if cs = [] then none
  else if cs.all Char.isDigit then
    some (cs.foldl (fun n c => n * 10 + (c.toNat - '0'.toNat)) 0)
  else none

/-- Python `int(s)`: optional surrounding whitespace, optional sign, digits;
raises `ValueError` (here `none`) otherwise. -/
def pyInt (cs : List Char) : Option Int :=
  let t := stripChars cs
  match t with
  | '-' :: rest => (digitsVal rest).map (fun n => -(n : Int))
  | '+' :: rest => (digitsVal rest).map (fun n => (n : Int))
  | _ => (digitsVal t).map (fun n => (n : Int))

/-- One token of `parse_classes` (`geobiotool_shannon_algorithm.py` lines
39–45): a token containing `-` is unpacked as `a, b = map(int, t.split('-'))`
and contributes `range(a, b+1)` (the integer interval `[a, b]`, empty when
`a > b`); otherwise the token contributes `int(t)`.  Any `ValueError`
(malformed int, wrong number of `-`-parts) is an error. -/
def parseToken (acc : Finset Int) (t0 : List Char) : Except String (Finset Int) :=
  let t := stripChars t0
  if '-' ∈ t then
    match splitOnChar '-' t with
    | [a, b] =>
      match pyInt a, pyInt b with
      | some ai, some bi => Except.ok (acc ∪ Finset.Icc ai bi)
      | _, _ => Except.error "invalid literal for int()"
    | _ => Except.error "cannot unpack"
  else
    match pyInt t with
    | some v => Except.ok (insert v acc)
    | none => Except.error "invalid literal for int()"

/-- `parse_classes` (`geobiotool_shannon_algorithm.py` lines 36–46; the
`parse_classes` in `geobiotool_simpson_algorithm.py` and
`geobiotool_algorithm.py` are verbatim duplicates): empty string means
"no restriction" (`None`); otherwise the comma-separated tokens are folded
into a set. -/
def parse_classes (s : String) : Except String (Option (Finset Int)) :=
  if s.data = [] then Except.ok none
  else ((splitOnChar ',' s.data).foldlM parseToken ∅).map some

instance {ε α : Type} [DecidableEq ε] [DecidableEq α] : DecidableEq (Except ε α) :=
  fun a b =>
    match a, b with
    | Except.ok x, Except.ok y =>
      if h : x = y then isTrue (by rw [h]) else isFalse (by simp [h])
    | Except.error x, Except.error y =>
      if h : x = y then isTrue (by rw [h]) else isFalse (by simp [h])
    | Except.ok _, Except.error _ => isFalse (by simp)
    | Except.error _, Except.ok _ => isFalse (by simp)

/-! ### Raster pipeline: valid pixels, Counter, indices
(`geobiotool_shannon_algorithm.py` / `geobiotool_simpson_algorithm.py`) -/

/-- `valid = flat[np.isin(flat, list(sel))] if sel else flat[(flat>0)&(flat<255)]`
(shannon line 57; simpson lines 69–72 are the same with `if selected:`).
Python truthiness: `None` and the empty set both take the default window. -/
def validPixels (flat : List ℚ) (sel : Option (Finset Int)) : List ℚ :=
  match sel with
  | some s =>
    if s.Nonempty then flat.filter (fun x => decide (∃ k ∈ s, (k : ℚ) = x))
    else flat.filter (fun x => 0 < x ∧ x < 255)
  | none => flat.filter (fun x => 0 < x ∧ x < 255)

/-- Keys of `collections.Counter(xs)` in first-occurrence order
(auxiliary: `seen` holds the keys already emitted). -/
def pyDedupAux {α : Type} [DecidableEq α] (seen : List α) : List α → List α
  | [] => []
  | x :: xs => if x ∈ seen then pyDedupAux seen xs else x :: pyDedupAux (x :: seen) xs

/-- Keys of `collections.Counter(xs)` in first-occurrence order (also the
distinct `groupby` keys of a pandas frame, before sorting). -/
def pyDedup {α : Type} [DecidableEq α] (xs : List α) : List α :=
  pyDedupAux [] xs

/-- `Counter(valid)` as an association list in insertion (first-occurrence)
order: `(key, count)` pairs. -/
def counterList (xs : List ℚ) : List (ℚ × ℕ) :=
  (pyDedup xs).map (fun k => (k, xs.count k))

/-- `total = sum(cnt.values())` (shannon line 59). -/
def totalOf (xs : List ℚ) : ℕ :=
  ((counterList xs).map (fun kv => kv.2)).sum

/-- `ps = [v/total for v in cnt.values()]` (shannon line 64). -/
def shannonPs (xs : List ℚ) : List ℚ :=
  (counterList xs).map (fun kv => (kv.2 : ℚ) / (totalOf xs : ℚ))

/-- `s_idx = -sum(p*np.log(p) for p in ps if p>0)` (shannon line 65). -/
noncomputable def shannonIdx (xs : List ℚ) : ℝ :=
  -(((shannonPs xs).filter (fun p => 0 < p)).map
      (fun p : ℚ => (p : ℝ) * Real.log (p : ℝ))).sum

/-- `si = 1 - sum(p * p for p in ps)` (simpson line 79). -/
def simpsonIdx (xs : List ℚ) : ℚ :=
  1 - ((shannonPs xs).map (fun p => p * p)).sum

/-- `props = {k: v/total for k, v in cnt.items()}` in Counter insertion
order (shannon line 68). -/
def propsList (xs : List ℚ) : List (ℚ × ℚ) :=
  (pyDedup xs).map (fun k => (k, (xs.count k : ℚ) / (totalOf xs : ℚ)))

/-- `for k in sorted(props): ...` — the ascending-by-class report view
(shannon lines 75–76): `(class, proportion, count)` triples. -/
def byClassAsc (xs : List ℚ) : List (ℚ × ℚ × ℕ) :=
  (List.insertionSort (fun a b => a ≤ b) (pyDedup xs)).map
    (fun k => (k, (xs.count k : ℚ) / (totalOf xs : ℚ), xs.count k))

/-- `sorted(props.items(), key=lambda x: x[1], reverse=True)` (shannon
line 79).  Python's sort is stable and `reverse=True` keeps ties in
original (Counter-insertion) order, which is exactly a stable sort by the
descending relation; `List.insertionSort` is that stable sort. -/
def byPropDesc (xs : List ℚ) : List (ℚ × ℚ) :=
  List.insertionSort (fun a b => b.2 ≤ a.2) (propsList xs)

/-- The descending-by-proportion report view: `(class, proportion, count)`. -/
def byPropDescView (xs : List ℚ) : List (ℚ × ℚ × ℕ) :=
  (byPropDesc xs).map (fun kp => (kp.1, kp.2, xs.count kp.1))

/-- The text report of the Shannon algorithm, as structured data. -/
structure ShannonReport where
  total : ℕ
  shannon : ℝ
  ascView : List (ℚ × ℚ × ℕ)
  descView : List (ℚ × ℚ × ℕ)

/-- Core of `GeoBioToolShannonAlgorithm.processAlgorithm` (lines 53–82)
after the collaborator has decoded the raster into `flat` (NaN/Inf already
zeroed) and the selector has been parsed: filter, count, guard
`total == 0`, compute the index, emit the two sorted views.  The file is
written only after the guard, so an error produces no output at all. -/
noncomputable def shannonRun (flat : List ℚ) (sel : Option (Finset Int)) :
    Except String ShannonReport :=
  let valid := validPixels flat sel
  if totalOf valid = 0 then Except.error "No valid pixels"
  else Except.ok
    { total := totalOf valid
      shannon := shannonIdx valid
      ascView := byClassAsc valid
      descView := byPropDescView valid }

/-- Core of `GeoBioToolSimpsonAlgorithm.processAlgorithm` (lines 62–89):
same filtering and guard (message "No valid pixels found."), Simpson
index, same two report views. -/
def simpsonRun (flat : List ℚ) (sel : Option (Finset Int)) :
    Except String (ℕ × ℚ × List (ℚ × ℚ × ℕ) × List (ℚ × ℚ × ℕ)) :=
  let valid := validPixels flat sel
  if totalOf valid = 0 then Except.error "No valid pixels found."
  else Except.ok (totalOf valid, simpsonIdx valid, byClassAsc valid, byPropDescView valid)

/-! ### Point clouds, grids and vertical-structure metrics -/

/-- A point record `(x, y, z)` of the ASCII point-cloud input. -/
structure Pt where
  x : ℚ
  y : ℚ
  z : ℚ
deriving DecidableEq

/-- `np.min` over a list (`0` on the empty list, which the source never
reaches: the frame always has at least one row by the time min is taken). -/
def listMin : List ℚ → ℚ
  | [] => 0
  | x :: xs => xs.foldl min x

/-- `np.max` over a list. -/
def listMax : List ℚ → ℚ
  | [] => 0
  | x :: xs => xs.foldl max x

/-- `np.mean` over a list (division by the length). -/
def meanQ (xs : List ℚ) : ℚ :=
  xs.sum / (xs.length : ℚ)

/-- `np.arange(start, stop, step)` for positive `step`: the values
`start + i*step` for `0 ≤ i < ⌈(stop-start)/step⌉`. -/
def arange (start stop step : ℚ) : List ℚ :=
  (List.range (⌈(stop - start) / step⌉.toNat)).map
    (fun i : ℕ => start + (i : ℚ) * step)

/-- `np.histogram(vals, bins=edges)`: counts per consecutive edge pair;
every bin is half-open `[e_i, e_{i+1})` except the last, which also
includes its right edge. -/
def histCounts (vals : List ℚ) (edges : List ℚ) : List ℕ :=
  let n := edges.length
  (List.range (n - 1)).map (fun i =>
    let lo := edges.getD i 0
    let hi := edges.getD (i + 1) 0
    if i = n - 2 then (vals.filter (fun v => lo ≤ v ∧ v ≤ hi)).length
    else (vals.filter (fun v => lo ≤ v ∧ v < hi)).length)

/-- Floor binning of one coordinate
(`np.floor((v - mn)/gsz)*gsz + mn`, `geobiotool_rumple_algorithm.py`
lines 95–96 and `geobiotool_lai_vci_algorithm.py` lines 81–82). -/
def floorCoord (mn g v : ℚ) : ℚ :=
  ⌊(v - mn) / g⌋ * g + mn

/-- The `(yg, xg)` grid key of a point (the `groupby(["yg","xg"])` key). -/
def keyOf (pts : List Pt) (g : ℚ) (p : Pt) : ℚ × ℚ :=
  (floorCoord (listMin (pts.map Pt.y)) g p.y,
   floorCoord (listMin (pts.map Pt.x)) g p.x)

/-- Lexicographic order on `(yg, xg)` keys — the order in which
`pandas.groupby` (with its default `sort=True`) yields the groups. -/
def keyLe (a b : ℚ × ℚ) : Prop :=
  a.1 < b.1 ∨ (a.1 = b.1 ∧ a.2 ≤ b.2)

instance : DecidableRel keyLe := fun a b => by
  unfold keyLe; infer_instance

/-- The distinct grid keys, ascending. -/
def gridKeys (pts : List Pt) (g : ℚ) : List (ℚ × ℚ) :=
  List.insertionSort keyLe (pyDedup (pts.map (keyOf pts g)))

/-- The member points of the cell with key `k` (original row order). -/
def subCell (pts : List Pt) (g : ℚ) (k : ℚ × ℚ) : List Pt :=
  pts.filter (fun p => keyOf pts g p = k)

/-! ### Rumple (`geobiotool_rumple_algorithm.py`) -/

/-- `np.std` (population standard deviation, `ddof=0`):
`sqrt(mean((z - mean(z))²))`. -/
noncomputable def stdR (zs : List ℚ) : ℝ :=
  Real.sqrt ((zs.map (fun z : ℚ => ((z : ℝ) - (meanQ zs : ℝ)) ^ 2)).sum / (zs.length : ℝ))

/-- `rumple` (lines 100–103): `mu, sd = zvals.mean(), zvals.std();
return sd / mu if mu != 0 else np.nan`.  `np.nan` is modelled as `none`. -/
noncomputable def rumple (zs : List ℚ) : Option ℝ :=
  if meanQ zs ≠ 0 then some (stdR zs / (meanQ zs : ℝ)) else none

/-- `df.groupby(["yg","xg"]).apply(rumple)` (line 105): one output row per
occupied cell — there is no minimum-occupancy filter in this algorithm. -/
noncomputable def rumpleRows (pts : List Pt) (g : ℚ) : List ((ℚ × ℚ) × Option ℝ) :=
  (gridKeys pts g).map (fun k => (k, rumple ((subCell pts g k).map Pt.z)))

/-! ### LAI / VCI (`geobiotool_lai_vci_algorithm.py`) -/

/-- `compute_lai_vci(zvals, z0=3, dz=1)` (lines 86–118), called with the
defaults.  Returns `(LAI, VCI)`; `np.nan` is modelled as `none`, and
`np.nansum` as summing the defined terms only (`reduceOption`). -/
noncomputable def compute_lai_vci (zvals : List ℚ) : Option ℝ × Option ℝ :=
  let above := zvals.filter (fun z => 3 ≤ z)
  if above.length < 1 then (none, none)
  else
    let layers := arange 3 (listMax above + 1) 1
    let counts := layers.map (fun h => (above.filter (fun z => h ≤ z)).length)
    let lad_vals : List (Option ℝ) :=
      (List.range (counts.length - 1)).map (fun i =>
        let ni := counts.getD i 0
        let nj := counts.getD (i + 1) 0
        if 0 < ni ∧ 0 < nj then some (Real.log ((ni : ℝ) / (nj : ℝ))) else none)
    let lai_val : ℝ := lad_vals.reduceOption.sum
    let hist_counts := histCounts above layers
    let hcQ : List ℚ := hist_counts.map (fun c : ℕ => (c : ℚ))
    let vci_val : Option ℝ :=
      if 0 < hist_counts.sum ∧ meanQ hcQ ≠ 0 then
        some (stdR hcQ / (meanQ hcQ : ℝ))
      else none
    (some lai_val, vci_val)

/-- The per-cell record loop (lines 120–126): cells with fewer than 20
points are skipped (`continue`) before `compute_lai_vci` is called; every
other cell contributes a record even when its metrics are null. -/
noncomputable def laiRecords (pts : List Pt) (g : ℚ) :
    List ((ℚ × ℚ) × (Option ℝ × Option ℝ)) :=
  (gridKeys pts g).filterMap (fun k =>
    if (subCell pts g k).length < 20 then none
    else some (k, compute_lai_vci ((subCell pts g k).map Pt.z)))

/-! ### FHD (`geobiotool_fhd_algorithm.py`) -/

/-- `compute_fhd(zvals)` (lines 90–94): 0.5-wide bins from `min(z)` to
`max(z)+0.5`, histogram, probabilities of the populated bins, entropy;
`np.nan` (when no bin is populated) is modelled as `none`. -/
noncomputable def compute_fhd (zvals : List ℚ) : Option ℝ :=
  let bins := arange (listMin zvals) (listMax zvals + 1 / 2) (1 / 2)
  let h := histCounts zvals bins
  let p : List ℚ := (h.filter (fun c => 0 < c)).map (fun c => (c : ℚ) / (h.sum : ℚ))
  if 0 < p.length then
    some (-((p.map (fun q : ℚ => (q : ℝ) * Real.log (q : ℝ))).sum))
  else none

/-- `x_edges = np.arange(xmin, xmax + grid, grid)` (line 101). -/
def fhdEdgesX (pts : List Pt) (g : ℚ) : List ℚ :=
  arange (listMin (pts.map Pt.x)) (listMax (pts.map Pt.x) + g) g

/-- `y_edges = np.arange(ymin, ymax + grid, grid)` (line 102). -/
def fhdEdgesY (pts : List Pt) (g : ℚ) : List ℚ :=
  arange (listMin (pts.map Pt.y)) (listMax (pts.map Pt.y) + g) g

/-- The FHD cell `(i, j)` (lines 105–106): points with
`x_edges[i] ≤ x < x_edges[i+1]` and `y_edges[j] ≤ y < y_edges[j+1]`. -/
def fhdCell (pts : List Pt) (g : ℚ) (i j : ℕ) : List Pt :=
  pts.filter (fun p =>
    (fhdEdgesX pts g).getD i 0 ≤ p.x ∧ p.x < (fhdEdgesX pts g).getD (i + 1) 0 ∧
    (fhdEdgesY pts g).getD j 0 ≤ p.y ∧ p.y < (fhdEdgesY pts g).getD (j + 1) 0)

/-- One CSV row of the FHD algorithm (lines 110–117 / 120–127). -/
structure FhdRow where
  x_min : ℚ
  y_min : ℚ
  point_count : ℕ
  zmean : ℚ
  zmax : ℚ
  fhd : Option ℝ

/-- The record appended for grid cell `(i, j)` (lines 110–117). -/
noncomputable def mkFhdRow (pts : List Pt) (g : ℚ) (i j : ℕ) : FhdRow :=
  { x_min := (fhdEdgesX pts g).getD i 0
    y_min := (fhdEdgesY pts g).getD j 0
    point_count := (fhdCell pts g i j).length
    zmean := meanQ ((fhdCell pts g i j).map Pt.z)
    zmax := listMax ((fhdCell pts g i j).map Pt.z)
    fhd := compute_fhd ((fhdCell pts g i j).map Pt.z) }

/-- The grid-mode result rows (lines 103–117): the double loop over edge
indices, skipping (`continue`) cells with fewer than 20 points. -/
noncomputable def fhdGridRows (pts : List Pt) (g : ℚ) : List FhdRow :=
  ((List.range ((fhdEdgesX pts g).length - 1)).map (fun i =>
    (List.range ((fhdEdgesY pts g).length - 1)).filterMap (fun j =>
      if (fhdCell pts g i j).length < 20 then none
      else some (mkFhdRow pts g i j)))).flatten

/-- The whole-extent (`use_grid=False`) branch (lines 118–127): exactly one
record over all points, appended without any occupancy check. -/
noncomputable def fhdWholeRows (pts : List Pt) : List FhdRow :=
  [{ x_min := listMin (pts.map Pt.x)
     y_min := listMin (pts.map Pt.y)
     point_count := pts.length
     zmean := meanQ (pts.map Pt.z)
     zmax := listMax (pts.map Pt.z)
     fhd := compute_fhd (pts.map Pt.z) }]

/-! ### Helper lemmas -/

lemma pyDedupAux_mem {α : Type} [DecidableEq α] (seen : List α) (xs : List α) (a : α) :
    a ∈ pyDedupAux seen xs ↔ a ∈ xs ∧ a ∉ seen := by
  induction xs generalizing seen with
  | nil => simp [pyDedupAux]
  | cons x xs ih =>
    simp only [pyDedupAux]
    by_cases hx : x ∈ seen
    · rw [if_pos hx, ih]
      simp only [List.mem_cons]
      constructor
      · rintro ⟨h1, h2⟩; exact ⟨Or.inr h1, h2⟩
      · rintro ⟨h1 | h1, h2⟩
        · exact absurd (h1 ▸ hx) h2
        · exact ⟨h1, h2⟩
    · rw [if_neg hx]
      simp only [List.mem_cons, ih]
      by_cases hax : a = x
      · subst hax; simp [hx]
      · simp [hax]

lemma pyDedup_mem {α : Type} [DecidableEq α] (xs : List α) (a : α) :
    a ∈ pyDedup xs ↔ a ∈ xs := by
  simp [pyDedup, pyDedupAux_mem]

lemma pyDedupAux_nodup {α : Type} [DecidableEq α] (seen : List α) (xs : List α) :
    (pyDedupAux seen xs).Nodup := by
  induction xs generalizing seen with
  | nil => simp [pyDedupAux]
  | cons x xs ih =>
    simp only [pyDedupAux]
    split
    · exact ih _
    · exact List.Nodup.cons
        (fun hmem => by
          rw [pyDedupAux_mem] at hmem
          exact hmem.2 (List.mem_cons_self x seen)) (ih _)

lemma pyDedup_nodup {α : Type} [DecidableEq α] (xs : List α) : (pyDedup xs).Nodup :=
  pyDedupAux_nodup _ _

lemma pyDedup_toFinset (xs : List ℚ) : (pyDedup xs).toFinset = xs.toFinset :=
  Finset.ext fun a => by simp [List.mem_toFinset, pyDedup_mem]

lemma foldl_min_le (xs : List ℚ) : ∀ a : ℚ, xs.foldl min a ≤ a := by
  induction xs with
  | nil => simp
  | cons x xs ih => exact fun a => le_trans (ih (min a x)) (min_le_left a x)

lemma foldl_min_le_mem (xs : List ℚ) : ∀ a z : ℚ, z ∈ xs → xs.foldl min a ≤ z := by
  induction xs with
  | nil => simp
  | cons x xs ih =>
    intro a z hz
    simp only [List.foldl_cons]
    rcases List.mem_cons.mp hz with h | h
    · subst h; exact le_trans (foldl_min_le xs (min a z)) (min_le_right a z)
    · exact ih _ _ h

lemma listMin_le_mem (xs : List ℚ) (z : ℚ) (hz : z ∈ xs) : listMin xs ≤ z := by
  cases xs with
  | nil => cases hz
  | cons x xs =>
    rcases List.mem_cons.mp hz with h | h
    · subst h; exact foldl_min_le xs z
    · exact foldl_min_le_mem xs x z h

lemma le_foldl_min (xs : List ℚ) :
    ∀ a c : ℚ, c ≤ a → (∀ z ∈ xs, c ≤ z) → c ≤ xs.foldl min a := by
  induction xs with
  | nil => exact fun a c h _ => by simpa using h
  | cons x xs ih =>
    intro a c ha hall
    exact ih _ _ (le_min ha (hall x (List.mem_cons_self x xs)))
      (fun z hz => hall z (List.mem_cons_of_mem _ hz))

lemma foldl_max_ge (xs : List ℚ) : ∀ a : ℚ, a ≤ xs.foldl max a := by
  induction xs with
  | nil => simp
  | cons x xs ih => exact fun a => le_trans (le_max_left a x) (ih (max a x))

lemma foldl_max_ge_mem (xs : List ℚ) : ∀ a z : ℚ, z ∈ xs → z ≤ xs.foldl max a := by
  induction xs with
  | nil => simp
  | cons x xs ih =>
    intro a z hz
    simp only [List.foldl_cons]
    rcases List.mem_cons.mp hz with h | h
    · subst h; exact le_trans (le_max_right a z) (foldl_max_ge xs (max a z))
    · exact ih _ _ h

lemma le_listMax_mem (xs : List ℚ) (z : ℚ) (hz : z ∈ xs) : z ≤ listMax xs := by
  cases xs with
  | nil => cases hz
  | cons x xs =>
    rcases List.mem_cons.mp hz with h | h
    · subst h; exact foldl_max_ge xs z
    · exact foldl_max_ge_mem xs x z h

lemma foldl_max_le (xs : List ℚ) :
    ∀ a c : ℚ, a ≤ c → (∀ z ∈ xs, z ≤ c) → xs.foldl max a ≤ c := by
  induction xs with
  | nil => exact fun a c h _ => by simpa using h
  | cons x xs ih =>
    intro a c ha hall
    exact ih _ _ (max_le ha (hall x (List.mem_cons_self x xs)))
      (fun z hz => hall z (List.mem_cons_of_mem _ hz))

lemma listMin_all_eq (zs : List ℚ) (c : ℚ) (hne : zs ≠ []) (hall : ∀ z ∈ zs, z = c) :
    listMin zs = c := by
  cases zs with
  | nil => exact absurd rfl hne
  | cons x xs =>
    refine le_antisymm ?_ ?_
    · exact (hall x (List.mem_cons_self x xs)) ▸ foldl_min_le xs x
    · exact le_foldl_min xs x c (le_of_eq (hall x (List.mem_cons_self x xs)).symm)
        (fun z hz => le_of_eq (hall z (List.mem_cons_of_mem _ hz)).symm)

lemma listMax_all_eq (zs : List ℚ) (c : ℚ) (hne : zs ≠ []) (hall : ∀ z ∈ zs, z = c) :
    listMax zs = c := by
  cases zs with
  | nil => exact absurd rfl hne
  | cons x xs =>
    refine le_antisymm ?_ ?_
    · exact foldl_max_le xs x c (le_of_eq (hall x (List.mem_cons_self x xs)))
        (fun z hz => le_of_eq (hall z (List.mem_cons_of_mem _ hz)))
    · exact (hall x (List.mem_cons_self x xs)) ▸ foldl_max_ge xs x

/-! ### Claims about the class-selector parser and the raster pipeline -/

/-- C2, counterexample: `parse_classes("3-1")` does NOT fail with a parse
error — `range(3, 1+1)` is empty, so the call succeeds and returns the
empty set. -/
theorem C2_counterexample : parse_classes "3-1" = Except.ok (some ∅) := by decide

/-- C2 (amended): a well-formed range token `a-b` with `a > b` parses
successfully and contributes no category ids (the `range` is empty), so the
selector set is returned unchanged; no `ParseError` is raised.  Well-formed
selectors still parse as specified (`"1,3-5"` = `{1,3,4,5}`). -/
theorem C2_descending_range_is_empty_not_error (acc : Finset Int)
    (t ta tb : List Char) (a b : Int)
    (hm : '-' ∈ stripChars t) (hs : splitOnChar '-' (stripChars t) = [ta, tb])
    (ha : pyInt ta = some a) (hb : pyInt tb = some b) (hba : b < a) :
    parseToken acc t = Except.ok acc ∧
      parse_classes "1,3-5" = Except.ok (some {1, 3, 4, 5}) := by
  refine ⟨?_, by decide⟩
  have hicc : Finset.Icc a b = ∅ :=
    Finset.Icc_eq_empty (fun hle => absurd hba (not_lt.mpr hle))
  simp only [parseToken, if_pos hm, hs, ha, hb, hicc, Finset.union_empty]

/-- C2, witness: the theorem applied to the actual token `"3-1"`. -/
theorem C2_witness : parseToken ∅ "3-1".data = Except.ok ∅ :=
  (C2_descending_range_is_empty_not_error ∅ "3-1".data "3".data "1".data 3 1
    (by decide) (by decide) (by decide) (by decide) (by decide)).1

/-- C7: when the retained sample sequence is empty (`total == 0`), the
Shannon run aborts with the single descriptive "No valid pixels" error and
no report is produced (the output file is written only after this guard). -/
theorem C7_empty_result_aborts (flat : List ℚ) (sel : Option (Finset Int))
    (h : totalOf (validPixels flat sel) = 0) :
    shannonRun flat sel = Except.error "No valid pixels" ∧
      ∀ r, shannonRun flat sel ≠ Except.ok r := by
  have h1 : shannonRun flat sel = Except.error "No valid pixels" := by
    simp only [shannonRun]
    rw [if_pos h]
  exact ⟨h1, fun r hr => by rw [h1] at hr; cases hr⟩

/-- C7, witness: a raster whose pixels are all outside the default validity
window aborts with the error. -/
theorem C7_witness :
    shannonRun [(-1 : ℚ), 0, 255, 300] none = Except.error "No valid pixels" :=
  (C7_empty_result_aborts [(-1 : ℚ), 0, 255, 300] none (by decide)).1

/-- C10: a selector that parses to the empty set (such as `"3-1"`) is
falsy in Python, so the Shannon and Simpson algorithms fall back to the
default validity window `0 < v < 255`, exactly as if no selector had been
given. -/
theorem C10_empty_selector_falls_back_to_window :
    parse_classes "3-1" = Except.ok (some ∅) ∧
      (∀ flat, validPixels flat (some ∅) =
        flat.filter (fun x => decide (0 < x ∧ x < 255))) ∧
      (∀ flat, shannonRun flat (some ∅) = shannonRun flat none) ∧
      (∀ flat, simpsonRun flat (some ∅) = simpsonRun flat none) := by
  refine ⟨by decide, fun flat => ?_, fun flat => ?_, fun flat => ?_⟩
  · simp [validPixels]
  · simp [shannonRun, validPixels]
  · simp [simpsonRun, validPixels]

/-- C5, counterexample: for the raster `[2,2,1,1]` classes 1 and 2 have the
same proportion 1/2, yet the descending-by-proportion view lists class 2
first — the tie is NOT broken by ascending category id (that would give
`[1, 2]`), but by Counter insertion order. -/
theorem C5_counterexample :
    propsList [(2 : ℚ), 2, 1, 1] = [(2, 1 / 2), (1, 1 / 2)] ∧
      (byPropDesc [(2 : ℚ), 2, 1, 1]).map Prod.fst = [2, 1] := by
  constructor
  · norm_num [propsList, totalOf, counterList, pyDedup, pyDedupAux,
      List.count_cons, List.count_nil]
  · norm_num [byPropDesc, propsList, totalOf, counterList, pyDedup, pyDedupAux,
      List.count_cons, List.count_nil, List.insertionSort, List.orderedInsert]

/-- C5 (amended): the descending view is a stable sort of the proportion
table by proportion descending; ties keep the first-occurrence order of the
classes in the flattened data, so the line order of equal-proportion
classes depends on the data sequence, not only on the frequency table:
`[2,2,1,1]` and `[1,1,2,2]` build permutations of the same Counter but
print the tied classes in opposite orders. -/
theorem C5_desc_view_stable_not_id_ascending :
    (∀ xs : List ℚ, (byPropDesc xs).Sorted (fun a b => b.2 ≤ a.2)) ∧
      (∀ xs : List ℚ, (byPropDesc xs).Perm (propsList xs)) ∧
      byPropDesc [(2 : ℚ), 2, 1, 1] = [(2, 1 / 2), (1, 1 / 2)] ∧
      byPropDesc [(1 : ℚ), 1, 2, 2] = [(1, 1 / 2), (2, 1 / 2)] ∧
      (counterList [(2 : ℚ), 2, 1, 1]).Perm (counterList [(1 : ℚ), 1, 2, 2]) := by
  haveI ht : IsTotal (ℚ × ℚ) (fun a b => b.2 ≤ a.2) := ⟨fun a b => le_total b.2 a.2⟩
  haveI htr : IsTrans (ℚ × ℚ) (fun a b => b.2 ≤ a.2) := ⟨fun a b c h1 h2 => le_trans h2 h1⟩
  refine ⟨fun xs => List.sorted_insertionSort _ _, fun xs => List.perm_insertionSort _ _,
    ?_, ?_, by decide⟩
  · norm_num [byPropDesc, propsList, totalOf, counterList, pyDedup, pyDedupAux,
      List.count_cons, List.count_nil, List.insertionSort, List.orderedInsert]
  · norm_num [byPropDesc, propsList, totalOf, counterList, pyDedup, pyDedupAux,
      List.count_cons, List.count_nil, List.insertionSort, List.orderedInsert]

/-- Helper for the C9 witness: the mean of `[1, -1]` is zero. -/
lemma meanQ_pair_zero : meanQ [(1 : ℚ), -1] = 0 := by
  norm_num [meanQ, List.sum_cons, List.sum_nil]

/-- C9: per cell, Rumple is `std(z) / mean(z)` computed only under the
`mean ≠ 0` guard; when `mean(z) = 0` the cell's value is null (`np.nan`),
and the groupby-apply still emits one row per occupied cell, so a null cell
never aborts the run. -/
theorem C9_rumple_cv_guarded :
    (∀ zs : List ℚ, meanQ zs = 0 → rumple zs = none) ∧
      (∀ zs : List ℚ, meanQ zs ≠ 0 → rumple zs = some (stdR zs / (meanQ zs : ℝ))) ∧
      (∀ (pts : List Pt) (g : ℚ), (rumpleRows pts g).map Prod.fst = gridKeys pts g) := by
  refine ⟨fun zs h => ?_, fun zs h => ?_, fun pts g => ?_⟩
  · simp [rumple, h]
  · simp [rumple, h]
  · simp only [rumpleRows, List.map_map]
    exact List.map_id _

/-- C9, witness: a cell whose heights average to zero gets a null Rumple. -/
theorem C9_witness : rumple [(1 : ℚ), -1] = none :=
  C9_rumple_cv_guarded.1 [(1 : ℚ), -1] meanQ_pair_zero

/-- C8: a cell with no points at or above the ground threshold `z0 = 3`
gets `(LAI, VCI) = (null, null)`, and this is purely per-cell: every cell
that passes the occupancy filter contributes its record to the output,
whatever its metric values, so a null cell never aborts the run. -/
theorem C8_lai_vci_null_no_qualifying_points :
    (∀ zs : List ℚ, zs.filter (fun z => 3 ≤ z) = [] →
        compute_lai_vci zs = (none, none)) ∧
      (∀ (pts : List Pt) (g : ℚ) (k : ℚ × ℚ), k ∈ gridKeys pts g →
        ¬(subCell pts g k).length < 20 →
        (k, compute_lai_vci ((subCell pts g k).map Pt.z)) ∈ laiRecords pts g) := by
  constructor
  · intro zs h
    simp [compute_lai_vci, h]
  · intro pts g k hk h20
    simp only [laiRecords, List.mem_filterMap]
    exact ⟨k, hk, by rw [if_neg h20]⟩

/-- C8, witness: a cell whose heights are all below 3 gets null metrics. -/
theorem C8_witness : compute_lai_vci [(0 : ℚ), 0] = (none, none) :=
  C8_lai_vci_null_no_qualifying_points.1 [(0 : ℚ), 0] (by decide)

/-! ### C6: the diversity-index formulas and the `[1,1,2,2]` sample -/

/-- Proportion of category `k` in the sample: count over total. -/
def proportionAt (xs : List ℚ) (k : ℚ) : ℚ :=
  (xs.count k : ℚ) / (totalOf xs : ℚ)

/-- Spec-side Shannon formula (§4.3, for comparison with `shannonIdx`):
`-Σ p_i ln p_i` over the distinct categories with `p_i > 0`. -/
noncomputable def shannonSpecIdx (xs : List ℚ) : ℝ :=
  -∑ k ∈ xs.toFinset.filter (fun k => 0 < proportionAt xs k),
      (proportionAt xs k : ℝ) * Real.log (proportionAt xs k : ℝ)

/-- Spec-side Simpson formula: `1 - Σ p_i²` over the distinct categories. -/
def simpsonSpecIdx (xs : List ℚ) : ℚ :=
  1 - ∑ k ∈ xs.toFinset, proportionAt xs k ^ 2

lemma shannonPs_eq_map (xs : List ℚ) :
    shannonPs xs = (pyDedup xs).map (fun k => proportionAt xs k) := by
  simp [shannonPs, counterList, List.map_map, proportionAt, Function.comp]

lemma map_filter_map_sum {M : Type} [AddCommMonoid M] (l : List ℚ) (g : ℚ → ℚ)
    (p : ℚ → Prop) [DecidablePred p] (f : ℚ → M) :
    (((l.map g).filter (fun q => decide (p q))).map f).sum =
      (l.map (fun k => if p (g k) then f (g k) else 0)).sum := by
  induction l with
  | nil => simp
  | cons x xs ih => by_cases h : p (g x) <;> simp [h, ih]

lemma finset_sum_pyDedup {M : Type} [AddCommMonoid M] (xs : List ℚ) (f : ℚ → M) :
    ∑ k ∈ xs.toFinset, f k = ((pyDedup xs).map f).sum := by
  rw [← pyDedup_toFinset, List.sum_toFinset f (pyDedup_nodup xs)]

lemma shannonIdx_eq_spec (xs : List ℚ) : shannonIdx xs = shannonSpecIdx xs := by
  rw [shannonIdx, shannonSpecIdx, shannonPs_eq_map, Finset.sum_filter,
    finset_sum_pyDedup, map_filter_map_sum]

lemma simpsonIdx_eq_spec (xs : List ℚ) : simpsonIdx xs = simpsonSpecIdx xs := by
  rw [simpsonIdx, simpsonSpecIdx, shannonPs_eq_map, finset_sum_pyDedup, List.map_map]
  have h : ((fun p : ℚ => p * p) ∘ fun k => proportionAt xs k) =
      fun k => proportionAt xs k ^ 2 := funext fun k => by simp [Function.comp, sq]
  rw [h]

/-- C6: the implemented Shannon index is exactly `-Σ p_i ln p_i` over the
categories with `p_i > 0`, the implemented Simpson index is exactly
`1 - Σ p_i²`, and on the sample `[1,1,2,2]` they give `total = 4`,
`Shannon = ln 2` (which lies in `(0.6931, 0.6932)`), `Simpson = 1/2`. -/
theorem C6_index_formulas_and_sample :
    (∀ xs : List ℚ, shannonIdx xs = shannonSpecIdx xs) ∧
      (∀ xs : List ℚ, simpsonIdx xs = simpsonSpecIdx xs) ∧
      totalOf [(1 : ℚ), 1, 2, 2] = 4 ∧
      shannonIdx [(1 : ℚ), 1, 2, 2] = Real.log 2 ∧
      simpsonIdx [(1 : ℚ), 1, 2, 2] = 1 / 2 ∧
      (0.6931 : ℝ) < Real.log 2 ∧ Real.log 2 < 0.6932 := by
  refine ⟨shannonIdx_eq_spec, simpsonIdx_eq_spec, by decide, ?_, ?_,
    lt_trans (by norm_num) Real.log_two_gt_d9, lt_trans Real.log_two_lt_d9 (by norm_num)⟩
  · have hps : shannonPs [(1 : ℚ), 1, 2, 2] = [1 / 2, 1 / 2] := by
      norm_num [shannonPs, totalOf, counterList, pyDedup, pyDedupAux,
        List.count_cons, List.count_nil]
    rw [shannonIdx, hps]
    have hf : [(1 : ℚ) / 2, 1 / 2].filter (fun p => decide (0 < p)) =
        [(1 : ℚ) / 2, 1 / 2] := by norm_num
    rw [hf]
    simp only [List.map_cons, List.map_nil, List.sum_cons, List.sum_nil]
    have hc : (((1 : ℚ) / 2 : ℚ) : ℝ) = (2 : ℝ)⁻¹ := by push_cast; norm_num
    rw [hc, Real.log_inv]
    ring
  · norm_num [simpsonIdx, shannonPs, totalOf, counterList, pyDedup, pyDedupAux,
      List.count_cons, List.count_nil]

/-! ### C4: FHD on a single-bin cell -/

lemma arange_single (a s : ℚ) (hs : s ≠ 0) : arange a (a + s) s = [a] := by
  have h : (a + s - a) / s = 1 := by field_simp
  rw [arange, h, Int.ceil_one]
  have hr : List.range (Int.toNat 1) = [0] := by decide
  rw [hr]
  simp

lemma compute_fhd_all_equal (zs : List ℚ) (c : ℚ) (hne : zs ≠ [])
    (hall : ∀ z ∈ zs, z = c) : compute_fhd zs = none := by
  have hm : listMin zs = c := listMin_all_eq zs c hne hall
  have hM : listMax zs = c := listMax_all_eq zs c hne hall
  have har : arange (listMin zs) (listMax zs + 1 / 2) (1 / 2) = [c] := by
    rw [hm, hM]; exact arange_single c (1 / 2) (by norm_num)
  simp only [compute_fhd, har]
  simp [histCounts]

lemma arange_pair (a b s : ℚ) (hs : 0 < s) (h1 : a < b) (h2 : b ≤ a + s) :
    arange a (b + s) s = [a, a + s] := by
  have hceil : ⌈(b + s - a) / s⌉ = 2 := by
    rw [Int.ceil_eq_iff]
    have hd : (b + s - a) / s = (b - a) / s + 1 := by field_simp; ring
    constructor
    · push_cast
      rw [hd]
      have : 0 < (b - a) / s := div_pos (by linarith) hs
      linarith
    · push_cast
      rw [hd]
      have : (b - a) / s ≤ 1 := by
        rw [div_le_one hs]; linarith
      linarith
  rw [arange, hceil]
  have ht : Int.toNat 2 = 2 := rfl
  rw [ht]
  have hr : List.range 2 = [0, 1] := by decide
  rw [hr]
  simp

lemma compute_fhd_single_bin (zs : List ℚ) (h1 : listMin zs < listMax zs)
    (h2 : listMax zs ≤ listMin zs + 1 / 2) : compute_fhd zs = some 0 := by
  have hne : zs ≠ [] := by
    intro h; rw [h] at h1; simp [listMin, listMax] at h1
  have hlen : 0 < zs.length := List.length_pos.mpr hne
  have har : arange (listMin zs) (listMax zs + 1 / 2) (1 / 2) =
      [listMin zs, listMin zs + 1 / 2] := arange_pair _ _ _ (by norm_num) h1 h2
  have hhist : histCounts zs [listMin zs, listMin zs + 1 / 2] = [zs.length] := by
    simp only [histCounts, List.length_cons, List.length_nil]
    have hr : List.range (0 + 1 + 1 - 1) = [0] := by decide
    rw [hr]
    simp only [List.map_cons, List.map_nil, List.getD_cons_zero, List.getD_cons_succ]
    norm_num
    intro v hv
    exact ⟨listMin_le_mem zs v hv, le_trans (le_listMax_mem zs v hv) h2⟩
  simp only [compute_fhd, har, hhist]
  have hlf : [zs.length].filter (fun c => decide (0 < c)) = [zs.length] := by
    simp [hlen]
  have hsum : ([zs.length] : List ℕ).sum = zs.length := by simp
  rw [hlf, hsum]
  have hdiv : ((zs.length : ℚ)) / ((zs.length : ℚ)) = 1 :=
    div_self (by exact_mod_cast Nat.pos_iff_ne_zero.mp hlen)
  simp [hdiv]

/-- C4, counterexample: a cell of 20 identical z-values does NOT get
`FHD = 0`: `np.arange(z, z+0.5, 0.5)` is the single edge `[z]`, the
histogram is empty, and `compute_fhd` returns NaN (null). -/
theorem C4_counterexample :
    compute_fhd (List.replicate 20 (5 : ℚ)) ≠ some 0 ∧
      compute_fhd (List.replicate 20 (5 : ℚ)) = none := by
  have h : compute_fhd (List.replicate 20 (5 : ℚ)) = none :=
    compute_fhd_all_equal _ 5 (by decide) (by decide)
  refine ⟨?_, h⟩
  rw [h]
  simp

/-- C4 (amended): FHD is 0 for a cell whose z-values span a positive range
that fits in one 0.5-wide bin; but when all z-values are exactly equal, the
bin array degenerates to one edge, the histogram is empty, and the result
is NaN (null) rather than 0. -/
theorem C4_single_bin_fhd :
    (∀ zs : List ℚ, listMin zs < listMax zs → listMax zs ≤ listMin zs + 1 / 2 →
        compute_fhd zs = some 0) ∧
      (∀ (zs : List ℚ) (c : ℚ), zs ≠ [] → (∀ z ∈ zs, z = c) →
        compute_fhd zs = none) :=
  ⟨compute_fhd_single_bin, compute_fhd_all_equal⟩

/-- Helpers for the C4 witness: `[0, 1/4]` spans a positive sub-bin range. -/
lemma listMin_wit_c4 : listMin [(0 : ℚ), 1 / 4] < listMax [(0 : ℚ), 1 / 4] := by
  norm_num [listMin, listMax, min_def, max_def]

lemma listMax_wit_c4 : listMax [(0 : ℚ), 1 / 4] ≤ listMin [(0 : ℚ), 1 / 4] + 1 / 2 := by
  norm_num [listMin, listMax, min_def, max_def]

/-- C4, witness: both branches of the amended claim at concrete cells. -/
theorem C4_witness :
    compute_fhd [(0 : ℚ), 1 / 4] = some 0 ∧ compute_fhd [(7 : ℚ), 7, 7] = none :=
  ⟨C4_single_bin_fhd.1 [(0 : ℚ), 1 / 4] listMin_wit_c4 listMax_wit_c4,
    C4_single_bin_fhd.2 [(7 : ℚ), 7, 7] 7 (by decide) (by decide)⟩

/-! ### C3 and C1: grid binning and the occupancy threshold -/

set_option maxRecDepth 8000

/-- Two points whose x-extent (20) is an exact multiple of the grid size
(20): the second point sits on the final edge. -/
def PD : List Pt := [⟨0, 0, 1⟩, ⟨20, 5, 2⟩]

/-- Twenty points on the diagonal, all in the single FHD grid cell. -/
def P20 : List Pt := (List.range 20).map (fun i : ℕ => ⟨(i : ℚ), (i : ℚ), (i : ℚ)⟩)

/-- Nineteen points at the same location: one under-threshold cell. -/
def P19 : List Pt := (List.range 19).map (fun i : ℕ => ⟨0, 0, (i : ℚ)⟩)

lemma arange_eval (a b s : ℚ) (n : ℤ) (hn : ⌈(b - a) / s⌉ = n) :
    arange a b s = (List.range n.toNat).map (fun i : ℕ => a + (i : ℚ) * s) := by
  rw [arange, hn]

lemma PD_edgesX : fhdEdgesX PD 20 = [0, 20] := by
  have h1 : listMin (PD.map Pt.x) = 0 := by decide
  have h2 : listMax (PD.map Pt.x) = 20 := by decide
  rw [fhdEdgesX, h1, h2, arange_eval 0 (20 + 20) 20 2 (by norm_num)]
  have hr : List.range (Int.toNat 2) = [0, 1] := by decide
  rw [hr]
  norm_num

lemma PD_edgesY : fhdEdgesY PD 20 = [0, 20] := by
  have h1 : listMin (PD.map Pt.y) = 0 := by decide
  have h2 : listMax (PD.map Pt.y) = 5 := by decide
  rw [fhdEdgesY, h1, h2, arange_eval 0 (5 + 20) 20 2
    (by rw [Int.ceil_eq_iff]; norm_num)]
  have hr : List.range (Int.toNat 2) = [0, 1] := by decide
  rw [hr]
  norm_num

/-- C3, counterexample: the point `(20, 5)` of `PD` lies on the final
x-edge; with the FHD edge binning (`x_edges[i] ≤ x < x_edges[i+1]`) it
belongs to NONE of the loop's grid cells — it is dropped, not assigned to
the cell whose lower edge is 20 (no such cell is generated). -/
theorem C3_counterexample :
    (⟨20, 5, 2⟩ : Pt) ∈ PD ∧
      ((List.range ((fhdEdgesX PD 20).length - 1)).map (fun i =>
        ((List.range ((fhdEdgesY PD 20).length - 1)).filter
          (fun j => decide ((⟨20, 5, 2⟩ : Pt) ∈ fhdCell PD 20 i j))).length)).sum = 0 := by
  constructor
  · decide
  · rw [PD_edgesX, PD_edgesY]
    simp only [fhdCell, PD_edgesX, PD_edgesY]
    decide

/-- C3 (amended): in the floor-keyed algorithms (Rumple, LAI/VCI) every
point belongs to exactly one grid cell, the assigned key is among the
produced group keys, and a point at `x = origin + k·cell_size` gets the
cell whose lower edge is exactly that coordinate (its key satisfies
`key ≤ x < key + cell_size`).  The FHD algorithm's edge binning instead
drops a point on the final edge when the extent is an exact multiple of
the cell size (see the counterexample). -/
theorem C3_floor_binning_partition :
    (∀ (pts : List Pt) (g : ℚ) (p : Pt), p ∈ pts →
        p ∈ subCell pts g (keyOf pts g p) ∧ keyOf pts g p ∈ gridKeys pts g ∧
          ∀ k, p ∈ subCell pts g k → k = keyOf pts g p) ∧
      (∀ (mn g v : ℚ) (k : ℤ), 0 < g → v = mn + (k : ℚ) * g →
        floorCoord mn g v = v) ∧
      (∀ mn g v : ℚ, 0 < g → floorCoord mn g v ≤ v ∧ v < floorCoord mn g v + g) := by
  refine ⟨?_, ?_, ?_⟩
  · intro pts g p hp
    refine ⟨?_, ?_, ?_⟩
    · simp [subCell, hp]
    · simp only [gridKeys, List.mem_insertionSort, pyDedup_mem, List.mem_map]
      exact ⟨p, hp, rfl⟩
    · intro k hk
      have h := (List.mem_filter.mp hk).2
      simp only [decide_eq_true_eq] at h
      exact h.symm
  · intro mn g v k hg hv
    subst hv
    rw [floorCoord]
    have h1 : (mn + (k : ℚ) * g - mn) / g = (k : ℚ) := by field_simp
    rw [h1, Int.floor_intCast]
    ring
  · intro mn g v hg
    rw [floorCoord]
    have h1 : (⌊(v - mn) / g⌋ : ℚ) ≤ (v - mn) / g := Int.floor_le _
    have h2 : (v - mn) / g < ⌊(v - mn) / g⌋ + 1 := Int.lt_floor_add_one _
    have h3 : ((v - mn) / g) * g = v - mn := div_mul_cancel₀ _ (ne_of_gt hg)
    constructor
    · nlinarith [mul_le_mul_of_nonneg_right h1 (le_of_lt hg)]
    · nlinarith [mul_lt_mul_of_pos_right h2 hg]

/-- C3, witness: floor binning puts the point `(0,0)` of `PD` into its own
assigned cell. -/
theorem C3_witness : (⟨0, 0, 1⟩ : Pt) ∈ subCell PD 20 (keyOf PD 20 ⟨0, 0, 1⟩) :=
  (C3_floor_binning_partition.1 PD 20 ⟨0, 0, 1⟩ (by decide)).1

/-- C1 (amended): the 20-point occupancy threshold holds for the FHD grid
mode (rows are emitted exactly for cells with ≥ 20 points, so a 19-point
cell is dropped and a 20-point cell retained) and for LAI/VCI (every
emitted record's cell has ≥ 20 points); but the Rumple algorithm emits one
row per occupied cell with NO occupancy filter, and the FHD whole-extent
mode emits its single record whatever the point count. -/
theorem C1_occupancy_threshold_per_algorithm :
    (∀ (pts : List Pt) (g : ℚ) (row : FhdRow), row ∈ fhdGridRows pts g →
        20 ≤ row.point_count) ∧
      (∀ (pts : List Pt) (g : ℚ) (i j : ℕ),
        i ∈ List.range ((fhdEdgesX pts g).length - 1) →
        j ∈ List.range ((fhdEdgesY pts g).length - 1) →
        ¬(fhdCell pts g i j).length < 20 →
        mkFhdRow pts g i j ∈ fhdGridRows pts g) ∧
      (∀ (pts : List Pt) (g : ℚ) (k : ℚ × ℚ) (r : Option ℝ × Option ℝ),
        (k, r) ∈ laiRecords pts g → 20 ≤ (subCell pts g k).length) ∧
      (∀ (pts : List Pt) (g : ℚ), (rumpleRows pts g).map Prod.fst = gridKeys pts g) ∧
      (∀ pts : List Pt, (fhdWholeRows pts).map FhdRow.point_count = [pts.length]) := by
  refine ⟨?_, ?_, ?_, ?_, ?_⟩
  · intro pts g row hrow
    simp only [fhdGridRows, List.mem_flatten, List.mem_map] at hrow
    obtain ⟨l, ⟨i, hi, hl⟩, hrl⟩ := hrow
    subst hl
    simp only [List.mem_filterMap] at hrl
    obtain ⟨j, hj, hij⟩ := hrl
    by_cases h : (fhdCell pts g i j).length < 20
    · rw [if_pos h] at hij; cases hij
    · rw [if_neg h] at hij
      cases hij
      simpa [mkFhdRow] using le_of_not_lt h
  · intro pts g i j hi hj h
    simp only [fhdGridRows, List.mem_flatten, List.mem_map]
    refine ⟨_, ⟨i, hi, rfl⟩, ?_⟩
    simp only [List.mem_filterMap]
    exact ⟨j, hj, by rw [if_neg h]⟩
  · intro pts g k r hkr
    simp only [laiRecords, List.mem_filterMap] at hkr
    obtain ⟨k', hk', hite⟩ := hkr
    by_cases h : (subCell pts g k').length < 20
    · rw [if_pos h] at hite; cases hite
    · rw [if_neg h] at hite
      cases hite
      exact le_of_not_lt h
  · intro pts g
    simp only [rumpleRows, List.map_map]
    exact List.map_id _
  · intro pts
    simp [fhdWholeRows]

lemma P19_key (p : Pt) (hp : p ∈ P19) : keyOf P19 20 p = (0, 0) := by
  have hminy : listMin (P19.map Pt.y) = 0 := by decide
  have hminx : listMin (P19.map Pt.x) = 0 := by decide
  simp only [P19] at hp
  obtain ⟨i, _, rfl⟩ := List.mem_map.mp hp
  rw [keyOf, hminy, hminx]
  have hfc : floorCoord 0 20 0 = 0 := by norm_num [floorCoord]
  simp [hfc]

lemma P19_keys : P19.map (keyOf P19 20) = List.replicate 19 ((0 : ℚ), (0 : ℚ)) := by
  apply List.eq_replicate_iff.mpr
  refine ⟨by simp [P19], ?_⟩
  intro b hb
  obtain ⟨p, hp, rfl⟩ := List.mem_map.mp hb
  exact P19_key p hp

lemma P19_gridKeys : gridKeys P19 20 = [((0 : ℚ), (0 : ℚ))] := by
  rw [gridKeys, P19_keys]
  have hd : pyDedup (List.replicate 19 ((0 : ℚ), (0 : ℚ))) = [(0, 0)] := by decide
  rw [hd]
  simp [List.insertionSort]

lemma P19_subCell : subCell P19 20 (0, 0) = P19 := by
  rw [subCell, List.filter_eq_self]
  intro p hp
  simp [P19_key p hp]

/-- C1, counterexample: the Rumple algorithm outputs a row for the cell of
`P19` although that cell holds only 19 points — no 20-point occupancy
threshold is applied. -/
theorem C1_counterexample :
    (rumpleRows P19 20).map Prod.fst = [((0 : ℚ), (0 : ℚ))] ∧
      (subCell P19 20 (0, 0)).length = 19 := by
  constructor
  · rw [rumpleRows, P19_gridKeys]
    simp
  · rw [P19_subCell]
    simp [P19]

lemma P20_edgesX : fhdEdgesX P20 20 = [0, 20] := by
  have h1 : listMin (P20.map Pt.x) = 0 := by decide
  have h2 : listMax (P20.map Pt.x) = 19 := by decide
  rw [fhdEdgesX, h1, h2, arange_eval 0 (19 + 20) 20 2
    (by rw [Int.ceil_eq_iff]; norm_num)]
  have hr : List.range (Int.toNat 2) = [0, 1] := by decide
  rw [hr]
  norm_num

lemma P20_edgesY : fhdEdgesY P20 20 = [0, 20] := by
  have h1 : listMin (P20.map Pt.y) = 0 := by decide
  have h2 : listMax (P20.map Pt.y) = 19 := by decide
  rw [fhdEdgesY, h1, h2, arange_eval 0 (19 + 20) 20 2
    (by rw [Int.ceil_eq_iff]; norm_num)]
  have hr : List.range (Int.toNat 2) = [0, 1] := by decide
  rw [hr]
  norm_num

lemma P20_cell_full : ¬(fhdCell P20 20 0 0).length < 20 := by
  simp only [fhdCell, P20_edgesX, P20_edgesY]
  decide

lemma P20_hi : 0 ∈ List.range ((fhdEdgesX P20 20).length - 1) := by
  rw [P20_edgesX]; decide

lemma P20_hj : 0 ∈ List.range ((fhdEdgesY P20 20).length - 1) := by
  rw [P20_edgesY]; decide

/-- C1, witness: a cell with exactly 20 points is retained by the FHD
grid mode. -/
theorem C1_witness : mkFhdRow P20 20 0 0 ∈ fhdGridRows P20 20 :=
  C1_occupancy_threshold_per_algorithm.2.1 P20 20 0 0 P20_hi P20_hj P20_cell_full

end GeoBioTool
